import Mathlib

/-!
Verification development for the egui-map-view repository.

The Rust source is shallowly embedded: f64/f32 arithmetic is idealized as
real arithmetic, pure functions become Lean functions, and the stateful
widget handlers become explicit state-update functions.  Discrete data
(tile ids, tile cache, GeoJSON structure, colors) is embedded with
computable types.
-/

noncomputable section

/-- Screen position, models egui Pos2 (f32 pair idealized as reals). -/
structure Pos2 where
  x : ℝ
  y : ℝ
deriving DecidableEq

/-- Geographical position, models projection.rs GeoPos (lon/lat f64). -/
structure GeoPos where
  lon : ℝ
  lat : ℝ
deriving DecidableEq

/-- Widget rectangle, models egui Rect given by min and max corners. -/
structure MapRect where
  min_x : ℝ
  min_y : ℝ
  max_x : ℝ
  max_y : ℝ

/-- Width of a rectangle, models Rect::width. -/
def MapRect.width (r : MapRect) : ℝ := r.max_x - r.min_x

/-- Height of a rectangle, models Rect::height. -/
def MapRect.height (r : MapRect) : ℝ := r.max_y - r.min_y

/-- Center of a rectangle, models Rect::center. -/
def MapRect.center (r : MapRect) : Pos2 :=
  ⟨(r.min_x + r.max_x) / 2, (r.min_y + r.max_y) / 2⟩

/-- Tile pixel size, models the constant TILE_SIZE = 256 in lib.rs. -/
def TILE_SIZE : ℝ := 256

/-- Models MIN_ZOOM = 0 in lib.rs. -/
def MIN_ZOOM : ℕ := 0

/-- Models MAX_ZOOM = 19 in lib.rs. -/
def MAX_ZOOM : ℕ := 19

/-- Models lib.rs lon_to_x: (lon + 180) / 360 * 2^zoom. -/
def lon_to_x (lon : ℝ) (zoom : ℕ) : ℝ :=
  (lon + 180) / 360 * (2 : ℝ) ^ zoom

/-- Models lib.rs lat_to_y: (1 - asinh(tan(lat_radians)) / pi) / 2 * 2^zoom. -/
def lat_to_y (lat : ℝ) (zoom : ℕ) : ℝ :=
  (1 - Real.arsinh (Real.tan (lat * Real.pi / 180)) / Real.pi) / 2 * (2 : ℝ) ^ zoom

/-- Models lib.rs x_to_lon: x / 2^zoom * 360 - 180. -/
def x_to_lon (x : ℝ) (zoom : ℕ) : ℝ :=
  x / (2 : ℝ) ^ zoom * 360 - 180

/-- Models lib.rs y_to_lat: atan(sinh(pi - 2 pi y / 2^zoom)) in degrees. -/
def y_to_lat (y : ℝ) (zoom : ℕ) : ℝ :=
  Real.arctan (Real.sinh (Real.pi - 2 * Real.pi * y / (2 : ℝ) ^ zoom)) * 180 / Real.pi

/-- Models projection.rs MapProjection: zoom, center and widget rect snapshot. -/
structure MapProjection where
  zoom : ℕ
  center_lon : ℝ
  center_lat : ℝ
  widget_rect : MapRect

/-- Models MapProjection::project: geo to screen coordinates. -/
def MapProjection.project (P : MapProjection) (g : GeoPos) : Pos2 :=
  let center_x := lon_to_x P.center_lon P.zoom
  let center_y := lat_to_y P.center_lat P.zoom
  let tile_x := lon_to_x g.lon P.zoom
  let tile_y := lat_to_y g.lat P.zoom
  let dx := (tile_x - center_x) * TILE_SIZE
  let dy := (tile_y - center_y) * TILE_SIZE
  ⟨(P.widget_rect.center).x + dx, (P.widget_rect.center).y + dy⟩

/-- Models MapProjection::unproject: screen to geo coordinates. -/
def MapProjection.unproject (P : MapProjection) (p : Pos2) : GeoPos :=
  let rel_x := p.x - P.widget_rect.min_x
  let rel_y := p.y - P.widget_rect.min_y
  let widget_center_x := P.widget_rect.width / 2
  let widget_center_y := P.widget_rect.height / 2
  let center_x := lon_to_x P.center_lon P.zoom
  let center_y := lat_to_y P.center_lat P.zoom
  let target_x := center_x + (rel_x - widget_center_x) / TILE_SIZE
  let target_y := center_y + (rel_y - widget_center_y) / TILE_SIZE
  ⟨x_to_lon target_x P.zoom, y_to_lat target_y P.zoom⟩

end

/-- Tile identifier, models lib.rs TileId (zoom level and tile indices). -/
structure TileId where
  z : ℕ
  x : ℕ
  y : ℕ
deriving DecidableEq

/-- State of a cached tile, models the lib.rs Tile enum; the Loading promise
payload and the Loaded texture and Failed error payloads are abstracted away,
only the state tag matters for the cache discipline. -/
inductive TileState where
  | loading : TileState
  | loaded : TileState
  | failed : TileState
deriving DecidableEq

/-- The tile cache, models the HashMap of lib.rs as an association list. -/
def TileCache := List (TileId × TileState)

/-- Lookup in the tile cache, models HashMap::get / entry presence. -/
def cacheGet (c : TileCache) (t : TileId) : Option TileState :=
  match c with
  | [] => none
  | (t', s) :: rest => if t' = t then some s else cacheGet rest t

/-- Overwrite-or-insert in the tile cache, models HashMap::insert semantics. -/
def cacheSet (c : TileCache) (t : TileId) (s : TileState) : TileCache :=
  match c with
  | [] => [(t, s)]
  | (t', s') :: rest => if t' = t then (t, s) :: rest else (t', s') :: cacheSet rest t s

/-- Poll step of Map::draw_tile: a Loading entry whose promise is ready
(some true for a decoded image, some false for an error) resolves to Loaded
or Failed; any other entry is left alone. -/
def cachePoll (c : TileCache) (t : TileId) (poll : Option Bool) : TileCache :=
  match cacheGet c t with
  | some TileState.loading =>
    match poll with
    | some true => cacheSet c t TileState.loaded
    | some false => cacheSet c t TileState.failed
    | none => c
  | _ => c

/-- One call of Map::draw_tile for one tile id, models lib.rs lines 330-444:
the entry API inserts a Loading entry and launches a fetch only when the key
is absent, then the Loading state is polled.  Returns the new cache and
whether a fetch was launched (Promise::spawn_thread was called). -/
def drawTileStep (c : TileCache) (t : TileId) (poll : Option Bool) : TileCache × Bool :=
  match cacheGet c t with
  | none => (cachePoll (cacheSet c t TileState.loading) t poll, true)
  | some _ => (cachePoll c t poll, false)

/-- Number of fetches launched for tile t along a sequence of draw_tile
calls, each event being the drawn tile id with its poll oracle. -/
def fetchCount (c : TileCache) (events : List (TileId × Option Bool)) (t : TileId) : ℕ :=
  match events with
  | [] => 0
  | (t', poll) :: rest =>
    let step := drawTileStep c t' poll
    (if step.2 ∧ t' = t then 1 else 0) + fetchCount step.1 rest t

/-- RGBA color with byte channels, models egui Color32. -/
structure Color32 where
  r : Fin 256
  g : Fin 256
  b : Fin 256
  a : Fin 256
deriving DecidableEq

/-- Lowercase hex digit for a value below 16, used by the hex color codec. -/
def hexDigitChar (n : ℕ) : Char :=
  if n < 10 then Char.ofNat (48 + n) else Char.ofNat (87 + n)

/-- Two lowercase hex digits of a byte. -/
def byteHex (n : ℕ) : List Char :=
  [hexDigitChar (n / 16), hexDigitChar (n % 16)]

/-- Models the external egui Color32::to_hex: a # followed by the four
channels as lowercase rrggbbaa hex pairs. -/
def Color32.toHex (c : Color32) : String :=
  String.mk ('#' :: (byteHex c.r.val ++ byteHex c.g.val ++ byteHex c.b.val ++ byteHex c.a.val))

/-- Value of one hex digit character, upper or lower case. -/
def hexDigitVal (c : Char) : Option ℕ :=
  if 48 ≤ c.toNat ∧ c.toNat ≤ 57 then some (c.toNat - 48)
  else if 97 ≤ c.toNat ∧ c.toNat ≤ 102 then some (c.toNat - 87)
  else if 65 ≤ c.toNat ∧ c.toNat ≤ 70 then some (c.toNat - 55)
  else none

/-- Byte value of a hex digit pair. -/
def hexPairVal (c1 c2 : Char) : Option (Fin 256) :=
  match hexDigitVal c1, hexDigitVal c2 with
  | some d1, some d2 =>
    if h : 16 * d1 + d2 < 256 then some ⟨16 * d1 + d2, h⟩ else none
  | _, _ => none

/-- Models the external egui Color32::from_hex on the rrggbbaa form, the only
form Color32::to_hex produces; other hex forms are not needed here and
parse to none. -/
def Color32.fromHex (s : String) : Option Color32 :=
  match s.data with
  | ['#', r1, r2, g1, g2, b1, b2, a1, a2] =>
    match hexPairVal r1 r2, hexPairVal g1 g2, hexPairVal b1 b2, hexPairVal a1 a2 with
    | some r, some g, some b, some a => some ⟨r, g, b, a⟩
    | _, _, _, _ => none
  | _ => none

noncomputable section

/-- Stroke style, models egui Stroke (width and color). -/
structure MapStroke where
  width : ℝ
  color : Color32

/-- JSON value subset used by the GeoJSON codec; numF models float-backed
serde_json numbers, numI integer-backed ones. -/
inductive JsonValue where
  | str : String → JsonValue
  | numF : ℝ → JsonValue
  | numI : ℤ → JsonValue

/-- JSON object, models the serde_json property map of a Feature. -/
def JMap := List (String × JsonValue)

/-- Insert-or-overwrite by key, models serde_json Map::insert. -/
def jInsert (m : JMap) (k : String) (v : JsonValue) : JMap :=
  match m with
  | [] => [(k, v)]
  | (k', v') :: rest => if k' = k then (k, v) :: rest else (k', v') :: jInsert rest k v

/-- Lookup by key, models serde_json Map::get. -/
def jGet (m : JMap) (k : String) : Option JsonValue :=
  match m with
  | [] => none
  | (k', v') :: rest => if k' = k then some v' else jGet rest k

/-- Models serde_json Value::as_f64 (succeeds on any numeric value). -/
def JsonValue.asF64 : JsonValue → Option ℝ
  | JsonValue.numF x => some x
  | JsonValue.numI n => some (n : ℝ)
  | _ => none

/-- Models serde_json Value::as_i64 (succeeds only on integer-backed values). -/
def JsonValue.asI64 : JsonValue → Option ℤ
  | JsonValue.numI n => some n
  | _ => none

/-- Models serde_json Value::as_str. -/
def JsonValue.asStr : JsonValue → Option String
  | JsonValue.str s => some s
  | _ => none

/-- GeoJSON geometry value subset, models geojson::Value. -/
inductive GeoJsonGeometry where
  | point : List ℝ → GeoJsonGeometry
  | lineString : List (List ℝ) → GeoJsonGeometry
  | polygon : List (List (List ℝ)) → GeoJsonGeometry
  | otherGeom : GeoJsonGeometry

/-- GeoJSON feature, models geojson::Feature (geometry plus properties). -/
structure Feature where
  geometry : Option GeoJsonGeometry
  properties : Option JMap

/-- Modelled from the spec: the From conversion between GeoPos and GeoJSON
positions is repository glue not present under src; GeoJSON positions are
lon-lat pairs. -/
def geoPosToPosition (g : GeoPos) : List ℝ := [g.lon, g.lat]

/-- Modelled from the spec: inverse of geoPosToPosition on lon-lat pairs. -/
def positionToGeoPos (l : List ℝ) : GeoPos := ⟨l.getD 0 0, l.getD 1 0⟩

/-- Crate name tag written by add_version_to_properties. -/
def crateName : String := "egui-map-view"

/-- Crate version tag written by add_version_to_properties; the concrete
version string does not influence any behavior modelled here. -/
def crateVersion : String := "0.4.0"

/-- Models geojson.rs add_version_to_properties. -/
def addVersionToProperties (m : JMap) : JMap :=
  jInsert (jInsert m "x-egui-map-view-crate-name" (JsonValue.str crateName))
    "x-egui-map-view-crate-version" (JsonValue.str crateVersion)

/-- Polygon or circle shape, models area.rs AreaShape; the optional explicit
approximation point count carried by the geojson.rs revision of the Circle
variant is included. -/
inductive AreaShape where
  | polygon : List GeoPos → AreaShape
  | circle : GeoPos → ℝ → Option ℤ → AreaShape

/-- A styled area, models area.rs Area. -/
structure Area where
  shape : AreaShape
  stroke : MapStroke
  fill : Color32

/-- Models geojson.rs impl From of Area for Feature (lines 46-94): style
properties plus either a closed polygon ring or a point with radius. -/
def Area.toFeature (area : Area) : Feature :=
  let props0 := addVersionToProperties []
  let props1 := jInsert props0 "stroke_color" (JsonValue.str area.stroke.color.toHex)
  let props2 := jInsert props1 "stroke_width" (JsonValue.numF area.stroke.width)
  let props3 := jInsert props2 "fill_color" (JsonValue.str area.fill.toHex)
  match area.shape with
  | AreaShape.polygon points =>
    let closingPoint := match points.head? with
      | some p => [p]
      | none => []
    let ring := (points ++ closingPoint).map geoPosToPosition
    { geometry := some (GeoJsonGeometry.polygon [ring]), properties := some props3 }
  | AreaShape.circle center radius points =>
    let props4 := jInsert props3 "radius" (JsonValue.numF radius)
    let props5 := match points with
      | some p => jInsert props4 "points" (JsonValue.numI p)
      | none => props4
    { geometry := some (GeoJsonGeometry.point (geoPosToPosition center)), properties := some props5 }

/-- Default stroke used by the Feature decoder: width 1, red. -/
def defaultStroke : MapStroke := ⟨1, ⟨255, 0, 0, 255⟩⟩

/-- Transparent fill default used by the Feature decoder. -/
def transparentFill : Color32 := ⟨0, 0, 0, 0⟩

/-- Style section of the Feature decoder (geojson.rs lines 147-172): stroke
width, stroke color and fill color from the properties when present and
parseable, otherwise the defaults. -/
def decodeStyle (properties : Option JMap) : MapStroke × Color32 :=
  let stroke := defaultStroke
  let fill := transparentFill
  match properties with
  | none => (stroke, fill)
  | some properties =>
    let stroke :=
      match (jGet properties "stroke_width").bind JsonValue.asF64 with
      | some width => { stroke with width := width }
      | none => stroke
    let stroke :=
      match ((jGet properties "stroke_color").bind JsonValue.asStr).bind Color32.fromHex with
      | some color => { stroke with color := color }
      | none => stroke
    let fill :=
      match ((jGet properties "fill_color").bind JsonValue.asStr).bind Color32.fromHex with
      | some color => color
      | none => fill
    (stroke, fill)

/-- Models geojson.rs impl TryFrom of Feature for Area (lines 96-180):
polygon rings lose their closing duplicate point, a point with a positive
radius property becomes a circle, anything else is an error; style
properties override the defaults when present and parseable. -/
def Area.tryFrom (feature : Feature) : Except String Area := do
  let shape : Option AreaShape ←
    match feature.geometry with
    | some (GeoJsonGeometry.polygon points) =>
      match points.head? with
      | none => Except.error "Polygon has no rings"
      | some ring => do
        let polygonPoints := ring.map positionToGeoPos
        let polygonPoints :=
          if polygonPoints.head? = polygonPoints.getLast? then polygonPoints.dropLast
          else polygonPoints
        pure (some (AreaShape.polygon polygonPoints))
    | some (GeoJsonGeometry.point point) => do
      match feature.properties with
      | none => Except.error "Feature has no properties"
      | some properties => do
        let center := positionToGeoPos point
        let radius := ((jGet properties "radius").bind JsonValue.asF64).getD 0
        let points := (jGet properties "points").bind JsonValue.asI64
        if radius ≤ 0 then Except.error "Radius must be greater than 0"
        else pure (some (AreaShape.circle center radius points))
    | some _ => pure none
    | none => pure none
  match shape with
  | none => Except.error "Unsupported geometry or missing shape data"
  | some shape =>
    pure { shape := shape, stroke := (decodeStyle feature.properties).1,
           fill := (decodeStyle feature.properties).2 }

/-- Squared distance between two screen points, models Pos2::distance_sq. -/
def distSq (p q : Pos2) : ℝ := (p.x - q.x) ^ 2 + (p.y - q.y) ^ 2

/-- Linear interpolation of screen points, models Pos2::lerp. -/
def lerp (a b : Pos2) (t : ℝ) : Pos2 :=
  ⟨a.x + (b.x - a.x) * t, a.y + (b.y - a.y) * t⟩

/-- Models layers/mod.rs dist_sq_to_segment: squared distance from a point
to a segment, with an explicit branch for the degenerate segment. -/
def dist_sq_to_segment (p a b : Pos2) : ℝ :=
  let ab : Pos2 := ⟨b.x - a.x, b.y - a.y⟩
  let ap : Pos2 := ⟨p.x - a.x, p.y - a.y⟩
  let l2 := ab.x ^ 2 + ab.y ^ 2
  if l2 = 0 then ap.x ^ 2 + ap.y ^ 2
  else
    let t := min (max ((ap.x * ab.x + ap.y * ab.y) / l2) 0) 1
    let closest : Pos2 := ⟨a.x + t * ab.x, a.y + t * ab.y⟩
    distSq p closest

/-- Models layers/mod.rs projection_factor: normalized and clamped factor of
the projection of a point onto a segment. -/
def projection_factor (p a b : Pos2) : ℝ :=
  let ab : Pos2 := ⟨b.x - a.x, b.y - a.y⟩
  let ap : Pos2 := ⟨p.x - a.x, p.y - a.y⟩
  let l2 := ab.x ^ 2 + ab.y ^ 2
  if l2 = 0 then 0
  else min (max ((ap.x * ab.x + ap.y * ab.y) / l2) 0) 1

/-- Models the orientation helper inside layers/mod.rs segments_intersect:
the sign of a cross product, with values within 1e-6 of zero treated as
collinear. -/
def orientation (p q r : Pos2) : ℤ :=
  let val := (q.y - p.y) * (r.x - q.x) - (q.x - p.x) * (r.y - q.y)
  if |val| < 1e-6 then 0
  else if 0 < val then 1
  else -1

/-- Models layers/mod.rs segments_intersect: the general-position cross test
on orientation signs; collinear special cases are deliberately ignored. -/
def segments_intersect (p1 q1 p2 q2 : Pos2) : Bool :=
  let o1 := orientation p1 q1 p2
  let o2 := orientation p1 q1 q2
  let o3 := orientation p2 q2 p1
  let o4 := orientation p2 q2 q1
  decide (o1 ≠ o2 ∧ o3 ≠ o4)

/-- Stated from the spec wording: two segments cross strictly in general
position when all four orientation triples are non-collinear and the signs
differ pairwise.  This is the comparison point for the refinement claims
about segments_intersect and the node-move validation. -/
def strict_general_cross (p1 q1 p2 q2 : Pos2) : Bool :=
  let o1 := orientation p1 q1 p2
  let o2 := orientation p1 q1 q2
  let o3 := orientation p2 q2 p1
  let o4 := orientation p2 q2 q1
  decide (o1 ≠ 0 ∧ o2 ≠ 0 ∧ o3 ≠ 0 ∧ o4 ≠ 0 ∧ o1 ≠ o2 ∧ o3 ≠ o4)

/-- The area layer state needed by the node-editing claims, models
area.rs AreaLayer (render style fields omitted, they do not influence
the editing logic). -/
structure AreaLayer where
  areas : List Area

/-- Models area.rs AreaLayer::is_move_valid (lines 336-394): the two
replacement edges are tested with segments_intersect against every polygon
edge not incident to the dragged node, skipping for each replacement edge
the edges incident to its stationary endpoint. -/
def is_move_valid (layer : AreaLayer) (area_idx node_idx : ℕ) (new_screen_pos : Pos2)
    (P : MapProjection) : Bool :=
  match layer.areas.get? area_idx with
  | none => false
  | some area =>
    match area.shape with
    | AreaShape.circle _ _ _ => true
    | AreaShape.polygon points =>
      if points.length < 3 then true
      else
        let screen_points := points.map P.project
        let n := screen_points.length
        let prev_node_idx := (node_idx + n - 1) % n
        let next_node_idx := (node_idx + 1) % n
        let sp := fun i => screen_points.getD i ⟨0, 0⟩
        let new_edge1 := (sp prev_node_idx, new_screen_pos)
        let new_edge2 := (new_screen_pos, sp next_node_idx)
        (List.range n).all fun i =>
          let p1_idx := i
          let p2_idx := (i + 1) % n
          if p1_idx = node_idx ∨ p2_idx = node_idx then true
          else
            let c1 :=
              if p1_idx ≠ prev_node_idx ∧ p2_idx ≠ prev_node_idx then
                segments_intersect new_edge1.1 new_edge1.2 (sp p1_idx) (sp p2_idx)
              else false
            let c2 :=
              if p1_idx ≠ next_node_idx ∧ p2_idx ≠ next_node_idx then
                segments_intersect new_edge2.1 new_edge2.2 (sp p1_idx) (sp p2_idx)
              else false
            !(c1 || c2)

/-- Assign a new geographic position to one polygon node, models the
get_mut chain in the PolygonNode arm of handle_modify_input; out-of-range
indices and non-polygon shapes leave the layer unchanged. -/
def setPolyNode (layer : AreaLayer) (area_idx node_idx : ℕ) (g : GeoPos) : AreaLayer :=
  match layer.areas.get? area_idx with
  | none => layer
  | some area =>
    match area.shape with
    | AreaShape.polygon points =>
      { areas := layer.areas.set area_idx { area with shape := AreaShape.polygon (points.set node_idx g) } }
    | _ => layer

/-- One drag frame for a dragged polygon node, models the PolygonNode arm of
area.rs handle_modify_input (lines 188-203): the move is applied only when
is_move_valid accepts the pointer position. -/
def dragPolygonNodeFrame (layer : AreaLayer) (area_idx node_idx : ℕ) (pointer_pos : Pos2)
    (P : MapProjection) : AreaLayer :=
  if is_move_valid layer area_idx node_idx pointer_pos P then
    setPolyNode layer area_idx node_idx (P.unproject pointer_pos)
  else layer

/-- Walk of drawing.rs split_polyline_by_erase_circle over the remaining
points: prev is the segment start, current the accumulated visible sub-line,
and acc the finished output polylines. -/
def eraseWalk (pointer_pos : Pos2) (r2 : ℝ) (P : MapProjection) :
    List GeoPos → GeoPos → List GeoPos → Bool → List (List GeoPos) → List (List GeoPos)
  | [], _, current, _, acc => if 1 < current.length then acc ++ [current] else acc
  | g2 :: rest, g1, current, visible, acc =>
    let s1 := P.project g1
    let s2 := P.project g2
    let erased := dist_sq_to_segment pointer_pos s1 s2 < r2
    if visible then
      if erased then
        let t := projection_factor pointer_pos s1 s2
        let split := P.unproject (lerp s1 s2 t)
        let current' := current ++ [split]
        if 1 < current'.length then eraseWalk pointer_pos r2 P rest g2 [] false (acc ++ [current'])
        else eraseWalk pointer_pos r2 P rest g2 current' false acc
      else eraseWalk pointer_pos r2 P rest g2 (current ++ [g2]) true acc
    else
      if erased then eraseWalk pointer_pos r2 P rest g2 current false acc
      else
        let t := projection_factor pointer_pos s1 s2
        let split := P.unproject (lerp s1 s2 t)
        eraseWalk pointer_pos r2 P rest g2 (current ++ [split, g2]) true acc

/-- Models drawing.rs split_polyline_by_erase_circle (lines 330-399). -/
def split_polyline_by_erase_circle (polyline : List GeoPos) (pointer_pos : Pos2) (r2 : ℝ)
    (P : MapProjection) : List (List GeoPos) :=
  match polyline with
  | [] => []
  | [_] => []
  | g0 :: g1 :: rest =>
    let s0 := P.project g0
    let s1 := P.project g1
    let erased0 := dist_sq_to_segment pointer_pos s0 s1 < r2
    let current0 : List GeoPos := if erased0 then [] else [g0]
    eraseWalk pointer_pos r2 P (g1 :: rest) g0 current0 (!erased0) []

/-- Drawing layer state needed by the erase claims, models drawing.rs
DrawingLayer: the stroke width doubles as the eraser radius. -/
structure DrawingLayer where
  polylines : List (List GeoPos)
  stroke_width : ℝ

/-- Models drawing.rs DrawingLayer::erase_at (lines 280-298). -/
def erase_at (layer : DrawingLayer) (pointer_pos : Pos2) (P : MapProjection) : DrawingLayer :=
  let erase_radius_sq := layer.stroke_width * layer.stroke_width
  { layer with
    polylines := layer.polylines.flatMap fun pl =>
      split_polyline_by_erase_circle pl pointer_pos erase_radius_sq P }

/-- Viewport state of the map widget, models the center and zoom fields of
lib.rs Map. -/
structure MapState where
  center_lon : ℝ
  center_lat : ℝ
  zoom : ℕ

/-- The projection snapshot a map state induces for a widget rect. -/
def projOf (s : MapState) (rect : MapRect) : MapProjection :=
  ⟨s.zoom, s.center_lon, s.center_lat, rect⟩

/-- Models the double-click branch of Map::handle_input (lib.rs lines
192-218): zoom in by one clamped to MAX_ZOOM and center the map on the
geographic point that was under the pointer. -/
def doubleClickUpdate (s : MapState) (rect : MapRect) (pointer_pos : Pos2) : MapState :=
  let new_zoom := min (s.zoom + 1) MAX_ZOOM
  if new_zoom ≠ s.zoom then
    let mouse_rel_x := pointer_pos.x - rect.min_x
    let mouse_rel_y := pointer_pos.y - rect.min_y
    let center_x := lon_to_x s.center_lon s.zoom
    let center_y := lat_to_y s.center_lat s.zoom
    let widget_center_x := rect.width / 2
    let widget_center_y := rect.height / 2
    let target_x := center_x + (mouse_rel_x - widget_center_x) / TILE_SIZE
    let target_y := center_y + (mouse_rel_y - widget_center_y) / TILE_SIZE
    { center_lon := x_to_lon target_x s.zoom
      center_lat := y_to_lat target_y s.zoom
      zoom := new_zoom }
  else s

/-- New zoom level of a scroll event before the change check: plus or minus
one level by scroll sign clamped to the zoom bounds, with zoom-out rejected
when the world pixel size at the decremented zoom would be smaller than the
widget in either dimension (lib.rs lines 239-253). -/
def scrollNewZoom (s : MapState) (rect : MapRect) (scroll : ℝ) : ℕ :=
  let signum : ℤ := if 0 < scroll then 1 else -1
  let clamped : ℕ := (max 0 (min ((s.zoom : ℤ) + signum) (MAX_ZOOM : ℤ))).toNat
  if scroll < 0 ∧
      ((2 : ℝ) ^ clamped * TILE_SIZE < rect.width ∨ (2 : ℝ) ^ clamped * TILE_SIZE < rect.height)
    then s.zoom
  else clamped

/-- Models the scroll branch of Map::handle_input (lib.rs lines 237-276):
one zoom level per event clamped to the zoom bounds, zoom-out rejected when
the world would become smaller than the widget, and on a zoom change the
center adjusted so the geographic point under the pointer is preserved. -/
def scrollUpdate (s : MapState) (rect : MapRect) (pointer_pos : Pos2) (scroll : ℝ) : MapState :=
  if scroll = 0 then s
  else
    let mouse_rel_x := pointer_pos.x - rect.min_x
    let mouse_rel_y := pointer_pos.y - rect.min_y
    let center_x := lon_to_x s.center_lon s.zoom
    let center_y := lat_to_y s.center_lat s.zoom
    let widget_center_x := rect.width / 2
    let widget_center_y := rect.height / 2
    let target_x := center_x + (mouse_rel_x - widget_center_x) / TILE_SIZE
    let target_y := center_y + (mouse_rel_y - widget_center_y) / TILE_SIZE
    let old_zoom := s.zoom
    let new_zoom := scrollNewZoom s rect scroll
    if new_zoom ≠ old_zoom then
      let target_lon := x_to_lon target_x old_zoom
      let target_lat := y_to_lat target_y old_zoom
      let new_target_x := lon_to_x target_lon new_zoom
      let new_target_y := lat_to_y target_lat new_zoom
      let new_center_x := new_target_x - (mouse_rel_x - widget_center_x) / TILE_SIZE
      let new_center_y := new_target_y - (mouse_rel_y - widget_center_y) / TILE_SIZE
      { center_lon := x_to_lon new_center_x new_zoom
        center_lat := y_to_lat new_center_y new_zoom
        zoom := new_zoom }
    else s

/-- The geographic point under a pointer position for a map state, as the
hover branch of Map::handle_input computes mouse_pos; it coincides with
MapProjection.unproject for the state's projection. -/
def geoUnderPointer (s : MapState) (rect : MapRect) (pointer_pos : Pos2) : GeoPos :=
  (projOf s rect).unproject pointer_pos

end

theorem two_pow_ne_zero (z : ℕ) : ((2 : ℝ) ^ z) ≠ 0 := by positivity

/-- Longitude tile coordinate round trip is exact over the reals. -/
theorem x_to_lon_lon_to_x (lon : ℝ) (z : ℕ) : x_to_lon (lon_to_x lon z) z = lon := by
  have h := two_pow_ne_zero z
  unfold x_to_lon lon_to_x
  field_simp
  ring

/-- Tile x coordinate round trip through longitude is exact over the reals. -/
theorem lon_to_x_x_to_lon (x : ℝ) (z : ℕ) : lon_to_x (x_to_lon x z) z = x := by
  have h := two_pow_ne_zero z
  unfold x_to_lon lon_to_x
  field_simp
  ring

/-- Latitude tile coordinate round trip is exact for latitudes strictly
between -90 and 90 degrees. -/
theorem y_to_lat_lat_to_y {lat : ℝ} (h1 : -90 < lat) (h2 : lat < 90) (z : ℕ) :
    y_to_lat (lat_to_y lat z) z = lat := by
  have hpow := two_pow_ne_zero z
  have hpi := Real.pi_ne_zero
  unfold y_to_lat lat_to_y
  have harg : Real.pi - 2 * Real.pi *
      ((1 - Real.arsinh (Real.tan (lat * Real.pi / 180)) / Real.pi) / 2 * (2 : ℝ) ^ z)
        / (2 : ℝ) ^ z
      = Real.arsinh (Real.tan (lat * Real.pi / 180)) := by
    field_simp
    ring
  rw [harg, Real.sinh_arsinh]
  have hrad1 : -(Real.pi / 2) < lat * Real.pi / 180 := by
    have : (-90 : ℝ) * Real.pi / 180 < lat * Real.pi / 180 := by
      have hpos : (0 : ℝ) < Real.pi / 180 := by positivity
      have := mul_lt_mul_of_pos_right h1 hpos
      calc (-90 : ℝ) * Real.pi / 180 = -90 * (Real.pi / 180) := by ring
        _ < lat * (Real.pi / 180) := this
        _ = lat * Real.pi / 180 := by ring
    calc -(Real.pi / 2) = (-90 : ℝ) * Real.pi / 180 := by ring
      _ < lat * Real.pi / 180 := this
  have hrad2 : lat * Real.pi / 180 < Real.pi / 2 := by
    have hpos : (0 : ℝ) < Real.pi / 180 := by positivity
    have := mul_lt_mul_of_pos_right h2 hpos
    calc lat * Real.pi / 180 = lat * (Real.pi / 180) := by ring
      _ < 90 * (Real.pi / 180) := this
      _ = Real.pi / 2 := by ring
  rw [Real.arctan_tan hrad1 hrad2]
  field_simp

/-- Tile y coordinate round trip through latitude is exact for every y. -/
theorem lat_to_y_y_to_lat (y : ℝ) (z : ℕ) : lat_to_y (y_to_lat y z) z = y := by
  have hpow := two_pow_ne_zero z
  have hpi := Real.pi_ne_zero
  unfold lat_to_y y_to_lat
  have harg : Real.arctan (Real.sinh (Real.pi - 2 * Real.pi * y / (2 : ℝ) ^ z)) * 180
      / Real.pi * Real.pi / 180
      = Real.arctan (Real.sinh (Real.pi - 2 * Real.pi * y / (2 : ℝ) ^ z)) := by
    field_simp
  rw [harg, Real.tan_arctan, Real.arsinh_sinh]
  field_simp
  ring

/-- The latitude produced by y_to_lat always lies strictly between -90 and 90. -/
theorem y_to_lat_mem_range (y : ℝ) (z : ℕ) :
    -90 < y_to_lat y z ∧ y_to_lat y z < 90 := by
  unfold y_to_lat
  have hpi : (0 : ℝ) < Real.pi := Real.pi_pos
  set a := Real.sinh (Real.pi - 2 * Real.pi * y / (2 : ℝ) ^ z) with ha
  have h1 : Real.arctan a < Real.pi / 2 := Real.arctan_lt_pi_div_two a
  have h2 : -(Real.pi / 2) < Real.arctan a := Real.neg_pi_div_two_lt_arctan a
  constructor
  · rw [lt_div_iff hpi]
    nlinarith [h2]
  · rw [div_lt_iff hpi]
    nlinarith [h1]

/-- Projecting the unprojection of any screen point returns it exactly. -/
theorem project_unproject (P : MapProjection) (p : Pos2) :
    P.project (P.unproject p) = p := by
  unfold MapProjection.project MapProjection.unproject
  simp only [lon_to_x_x_to_lon, lat_to_y_y_to_lat]
  unfold MapRect.center MapRect.width MapRect.height TILE_SIZE
  cases p with
  | mk px py =>
    simp only [Pos2.mk.injEq]
    constructor <;> ring

/-- Unprojecting the projection of a geographic point with latitude strictly
between -90 and 90 returns it exactly. -/
theorem unproject_project (P : MapProjection) (g : GeoPos)
    (h1 : -90 < g.lat) (h2 : g.lat < 90) :
    P.unproject (P.project g) = g := by
  unfold MapProjection.project MapProjection.unproject
  simp only []
  unfold MapRect.center MapRect.width MapRect.height TILE_SIZE
  have hx : lon_to_x P.center_lon P.zoom +
      ((P.widget_rect.min_x + P.widget_rect.max_x) / 2 +
          (lon_to_x g.lon P.zoom - lon_to_x P.center_lon P.zoom) * 256 - P.widget_rect.min_x -
        (P.widget_rect.max_x - P.widget_rect.min_x) / 2) / 256 = lon_to_x g.lon P.zoom := by
    ring
  have hy : lat_to_y P.center_lat P.zoom +
      ((P.widget_rect.min_y + P.widget_rect.max_y) / 2 +
          (lat_to_y g.lat P.zoom - lat_to_y P.center_lat P.zoom) * 256 - P.widget_rect.min_y -
        (P.widget_rect.max_y - P.widget_rect.min_y) / 2) / 256 = lat_to_y g.lat P.zoom := by
    ring
  rw [hx, hy, x_to_lon_lon_to_x, y_to_lat_lat_to_y h1 h2]

/-- Projecting the projection center lands on the widget rect center. -/
theorem project_center (P : MapProjection) :
    P.project ⟨P.center_lon, P.center_lat⟩ = P.widget_rect.center := by
  unfold MapProjection.project
  simp only [sub_self, zero_mul, add_zero]

/-- C1: for every zoom level in the tested set and every coordinate in the
Mercator-valid ranges, the longitude and latitude tile-coordinate
conversions are inverses within 1e-9, and MapProjection project/unproject
are inverses within 1e-9 degrees respectively 1e-3 pixels.  Over the real
idealization of the f64 arithmetic the round trips are exact, so every
tolerance bound holds strictly. -/
theorem mercator_conversions_are_inverses (z : ℕ) (hz : z ∈ [0, 5, 8, 10, 19])
    (lon lat : ℝ) (hlat1 : -85.0511287798 ≤ lat) (hlat2 : lat ≤ 85.0511287798)
    (P : MapProjection) (g : GeoPos)
    (hg1 : -85.0511287798 ≤ g.lat) (hg2 : g.lat ≤ 85.0511287798) (p : Pos2) :
    |x_to_lon (lon_to_x lon z) z - lon| < 1e-9 ∧
    |y_to_lat (lat_to_y lat z) z - lat| < 1e-9 ∧
    |(P.unproject (P.project g)).lon - g.lon| < 1e-9 ∧
    |(P.unproject (P.project g)).lat - g.lat| < 1e-9 ∧
    |(P.project (P.unproject p)).x - p.x| < 1e-3 ∧
    |(P.project (P.unproject p)).y - p.y| < 1e-3 := by
  have hlat90a : (-90 : ℝ) < lat := by linarith [hlat1]
  have hlat90b : lat < 90 := by linarith [hlat2]
  have hg90a : (-90 : ℝ) < g.lat := by linarith [hg1]
  have hg90b : g.lat < 90 := by linarith [hg2]
  have h1 := x_to_lon_lon_to_x lon z
  have h2 := y_to_lat_lat_to_y hlat90a hlat90b z
  have h3 := unproject_project P g hg90a hg90b
  have h4 := project_unproject P p
  rw [h1, h2, h3, h4]
  norm_num

/-- Witness for C1 at zoom 10 and the Helsinki coordinate. -/
theorem mercator_conversions_are_inverses_witness :
    |x_to_lon (lon_to_x 24.93545 10) 10 - 24.93545| < 1e-9 :=
  (mercator_conversions_are_inverses 10 (by decide) 24.93545 60.16952
    (by norm_num) (by norm_num)
    ⟨10, 24.93545, 60.16952, ⟨100, 200, 900, 800⟩⟩ ⟨24.93545, 60.16952⟩
    (by norm_num) (by norm_num) ⟨150, 250⟩).1

/-- C10: the segment helpers are total: a degenerate segment gives the
squared distance to its single point and projection factor 0, and the
projection factor is always clamped into the closed unit interval. -/
theorem segment_helpers_total_and_clamped :
    (∀ p a : Pos2, dist_sq_to_segment p a a = distSq p a ∧ projection_factor p a a = 0) ∧
    (∀ p a b : Pos2, 0 ≤ projection_factor p a b ∧ projection_factor p a b ≤ 1) := by
  constructor
  · intro p a
    constructor
    · unfold dist_sq_to_segment distSq
      simp [sub_self]
    · unfold projection_factor
      simp [sub_self]
  · intro p a b
    unfold projection_factor
    by_cases h : (b.x - a.x) ^ 2 + (b.y - a.y) ^ 2 = 0
    · simp [h]
    · simp only [h, if_false, if_neg h]
      constructor
      · exact le_min (le_max_right _ _) zero_le_one
      · exact min_le_right _ _

/-- Orientation of a triple whose third point repeats the first is collinear. -/
theorem orientation_repeat_left (p q : Pos2) : orientation p q p = 0 := by
  unfold orientation
  have h : (q.y - p.y) * (p.x - q.x) - (q.x - p.x) * (p.y - q.y) = 0 := by ring
  rw [h]
  norm_num

/-- Orientation of a triple whose third point repeats the second is collinear. -/
theorem orientation_repeat_right (p q : Pos2) : orientation p q q = 0 := by
  unfold orientation
  have h : (q.y - p.y) * (q.x - q.x) - (q.x - p.x) * (q.y - q.y) = 0 := by ring
  rw [h]
  norm_num

/-- A strict general-position crossing makes segments_intersect report true. -/
theorem strict_cross_imp_intersect {p1 q1 p2 q2 : Pos2}
    (h : strict_general_cross p1 q1 p2 q2 = true) :
    segments_intersect p1 q1 p2 q2 = true := by
  unfold strict_general_cross at h
  unfold segments_intersect
  simp only [decide_eq_true_eq] at h ⊢
  exact ⟨h.2.2.2.2.1, h.2.2.2.2.2⟩

/-- Two segments sharing an endpoint value never cross strictly in general
position: one of the four orientation triples is degenerate. -/
theorem strict_cross_shared_endpoint_false {p1 q1 p2 q2 : Pos2}
    (h : p2 = p1 ∨ p2 = q1 ∨ q2 = p1 ∨ q2 = q1) :
    strict_general_cross p1 q1 p2 q2 = false := by
  unfold strict_general_cross
  simp only [decide_eq_false_iff_not]
  intro hc
  rcases h with h | h | h | h
  · exact hc.1 (by rw [h]; exact orientation_repeat_left p1 q1)
  · exact hc.1 (by rw [h]; exact orientation_repeat_right p1 q1)
  · exact hc.2.1 (by rw [h]; exact orientation_repeat_left p1 q1)
  · exact hc.2.1 (by rw [h]; exact orientation_repeat_right p1 q1)

/-- C4 (amended): segments_intersect reports true exactly when the two
orientation-sign pairs differ; every strict general-position crossing is
reported, and fully collinear configurations are never reported; touching
configurations in which exactly one orientation vanishes are however
reported as intersecting (see the counterexample). -/
theorem segments_intersect_orientation_characterization (p1 q1 p2 q2 : Pos2) :
    (segments_intersect p1 q1 p2 q2 = true ↔
      (orientation p1 q1 p2 ≠ orientation p1 q1 q2 ∧
        orientation p2 q2 p1 ≠ orientation p2 q2 q1)) ∧
    (strict_general_cross p1 q1 p2 q2 = true → segments_intersect p1 q1 p2 q2 = true) ∧
    (orientation p1 q1 p2 = 0 ∧ orientation p1 q1 q2 = 0 ∧
      orientation p2 q2 p1 = 0 ∧ orientation p2 q2 q1 = 0 →
      segments_intersect p1 q1 p2 q2 = false) := by
  refine ⟨?_, ?_, ?_⟩
  · unfold segments_intersect
    simp
  · exact strict_cross_imp_intersect
  · intro hcol
    unfold segments_intersect
    simp only [decide_eq_false_iff_not]
    intro hc
    exact hc.1 (by rw [hcol.1, hcol.2.1])

/-- Witness for C4 at a general-position crossing of two diagonals. -/
theorem segments_intersect_orientation_characterization_witness :
    segments_intersect ⟨0, 0⟩ ⟨10, 10⟩ ⟨0, 10⟩ ⟨10, 0⟩ = true := by
  apply (segments_intersect_orientation_characterization ⟨0, 0⟩ ⟨10, 10⟩ ⟨0, 10⟩ ⟨10, 0⟩).2.1
  unfold strict_general_cross orientation
  norm_num

/-- Counterexample for C4: a T-junction (the endpoint (5,5) of the second
segment lies on the first segment, the configuration merely touches and is
not a strict general-position crossing) is reported as intersecting,
refuting the claim that touching configurations return false. -/
theorem segments_intersect_true_on_touching :
    strict_general_cross ⟨0, 5⟩ ⟨10, 5⟩ ⟨5, 0⟩ ⟨5, 5⟩ = false ∧
    orientation ⟨0, 5⟩ ⟨10, 5⟩ ⟨5, 5⟩ = 0 ∧
    segments_intersect ⟨0, 5⟩ ⟨10, 5⟩ ⟨5, 0⟩ ⟨5, 5⟩ = true := by
  refine ⟨?_, ?_, ?_⟩
  · unfold strict_general_cross orientation
    norm_num
  · unfold orientation
    norm_num
  · unfold segments_intersect orientation
    norm_num

/-- Lookup after overwrite-or-insert. -/
theorem cacheGet_cacheSet (c : TileCache) (t0 : TileId) (s : TileState) (t : TileId) :
    cacheGet (cacheSet c t0 s) t = if t0 = t then some s else cacheGet c t := by
  induction c with
  | nil => by_cases h : t0 = t <;> simp [cacheSet, cacheGet, h]
  | cons hd tl ih =>
    obtain ⟨a, b⟩ := hd
    by_cases h1 : a = t0
    · subst h1
      by_cases h2 : a = t <;> simp [cacheSet, cacheGet, h2]
    · by_cases h2 : a = t
      · subst h2
        have h3 : ¬(t0 = a) := fun hh => h1 hh.symm
        simp [cacheSet, cacheGet, h1, h3]
      · simp [cacheSet, cacheGet, h1, h2, ih]

/-- Polling never touches entries of other tile ids. -/
theorem cachePoll_get_ne (c : TileCache) (t0 : TileId) (poll : Option Bool) (t : TileId)
    (h : t0 ≠ t) : cacheGet (cachePoll c t0 poll) t = cacheGet c t := by
  unfold cachePoll
  cases hs : cacheGet c t0 with
  | none => rfl
  | some st =>
    cases st with
    | loading =>
      cases poll with
      | none => rfl
      | some b => cases b <;> simp [cacheGet_cacheSet, h]
    | loaded => rfl
    | failed => rfl

/-- Polling an entry that is not Loading leaves the cache unchanged. -/
theorem cachePoll_not_loading (c : TileCache) (t0 : TileId) (poll : Option Bool)
    (h : cacheGet c t0 ≠ some TileState.loading) : cachePoll c t0 poll = c := by
  unfold cachePoll
  cases hs : cacheGet c t0 with
  | none => rfl
  | some st => cases st with
    | loading => exact absurd hs h
    | loaded => rfl
    | failed => rfl

/-- A drawn tile id is present afterwards; other ids keep their presence. -/
theorem drawTileStep_none_iff (c : TileCache) (t0 : TileId) (poll : Option Bool) (t : TileId) :
    cacheGet (drawTileStep c t0 poll).1 t = none ↔ (t ≠ t0 ∧ cacheGet c t = none) := by
  have hpoll : ∀ c', cacheGet (cachePoll c' t0 poll) t = none ↔ cacheGet c' t = none := by
    intro c'
    unfold cachePoll
    cases hs : cacheGet c' t0 with
    | none => exact Iff.rfl
    | some st =>
      cases st with
      | loading =>
        cases poll with
        | none => exact Iff.rfl
        | some b =>
          cases b <;> (
            rw [cacheGet_cacheSet]
            by_cases h : t0 = t
            · subst h
              simp [hs]
            · simp [h])
      | loaded => exact Iff.rfl
      | failed => exact Iff.rfl
  unfold drawTileStep
  cases hs : cacheGet c t0 with
  | none =>
    simp only []
    rw [hpoll, cacheGet_cacheSet]
    by_cases h : t0 = t
    · subst h
      simp [hs]
    · have h2 : t ≠ t0 := fun hh => h hh.symm
      simp [h, h2]
  | some st =>
    simp only []
    rw [hpoll]
    by_cases h : t = t0
    · subst h
      simp [hs]
    · simp [h]

/-- Once present, a tile id never accrues another fetch. -/
theorem fetchCount_zero_of_present (events : List (TileId × Option Bool)) :
    ∀ c : TileCache, ∀ t : TileId, cacheGet c t ≠ none → fetchCount c events t = 0 := by
  induction events with
  | nil => intro c t _; rfl
  | cons ev rest ih =>
    intro c t h
    obtain ⟨t', poll⟩ := ev
    unfold fetchCount
    simp only []
    have hflag : ¬((drawTileStep c t' poll).2 ∧ t' = t) := by
      rintro ⟨hf, rfl⟩
      unfold drawTileStep at hf
      cases hs : cacheGet c t' with
      | none => exact h hs
      | some st => rw [hs] at hf; simp at hf
    rw [if_neg hflag]
    have hpres : cacheGet (drawTileStep c t' poll).1 t ≠ none := by
      intro hzero
      exact h ((drawTileStep_none_iff c t' poll t).mp hzero).2
    simp [ih _ _ hpres]

/-- C7: the tile cache is a one-way state machine: Loaded and Failed entries
never change again, Loading only resolves to Loaded or Failed, a fetch is
launched exactly when the tile id is absent, and along any sequence of
draw_tile calls at most one fetch is ever launched per tile id. -/
theorem tile_cache_one_way_single_fetch (c : TileCache) (t' : TileId) (poll : Option Bool)
    (t : TileId) (events : List (TileId × Option Bool)) :
    (cacheGet c t = some TileState.loaded →
      cacheGet (drawTileStep c t' poll).1 t = some TileState.loaded) ∧
    (cacheGet c t = some TileState.failed →
      cacheGet (drawTileStep c t' poll).1 t = some TileState.failed) ∧
    (cacheGet c t = some TileState.loading →
      cacheGet (drawTileStep c t' poll).1 t = some TileState.loading ∨
      cacheGet (drawTileStep c t' poll).1 t = some TileState.loaded ∨
      cacheGet (drawTileStep c t' poll).1 t = some TileState.failed) ∧
    ((drawTileStep c t' poll).2 = true ↔ cacheGet c t' = none) ∧
    fetchCount c events t ≤ 1 := by
  have hne : ∀ {st : TileState}, t' ≠ t → cacheGet c t = some st →
      cacheGet (drawTileStep c t' poll).1 t = some st := by
    intro st h hst
    unfold drawTileStep
    cases hs : cacheGet c t' with
    | none =>
      simp only []
      rw [cachePoll_get_ne _ _ _ _ h, cacheGet_cacheSet, if_neg h, hst]
    | some s0 =>
      simp only []
      rw [cachePoll_get_ne _ _ _ _ h, hst]
  refine ⟨?_, ?_, ?_, ?_, ?_⟩
  · intro hst
    by_cases h : t' = t
    · subst h
      unfold drawTileStep
      rw [hst]
      simp only []
      rw [cachePoll_not_loading _ _ _ (by rw [hst]; simp), hst]
    · exact hne h hst
  · intro hst
    by_cases h : t' = t
    · subst h
      unfold drawTileStep
      rw [hst]
      simp only []
      rw [cachePoll_not_loading _ _ _ (by rw [hst]; simp), hst]
    · exact hne h hst
  · intro hst
    by_cases h : t' = t
    · subst h
      unfold drawTileStep
      rw [hst]
      simp only []
      unfold cachePoll
      rw [hst]
      cases poll with
      | none => left; exact hst
      | some b =>
        cases b
        · right; right
          rw [cacheGet_cacheSet]
          simp
        · right; left
          rw [cacheGet_cacheSet]
          simp
    · left
      exact hne h hst
  · unfold drawTileStep
    cases hs : cacheGet c t' with
    | none => simp [hs]
    | some st => simp [hs]
  · clear hne
    induction events generalizing c with
    | nil => simp [fetchCount]
    | cons ev rest ih =>
      obtain ⟨t0, p0⟩ := ev
      unfold fetchCount
      simp only []
      by_cases hflag : (drawTileStep c t0 p0).2 ∧ t0 = t
      · rw [if_pos hflag]
        obtain ⟨hf, rfl⟩ := hflag
        have hpres : cacheGet (drawTileStep c t0 p0).1 t0 ≠ none := by
          intro hzero
          exact ((drawTileStep_none_iff c t0 p0 t0).mp hzero).1 rfl
        rw [fetchCount_zero_of_present rest _ _ hpres]
      · rw [if_neg hflag]
        simpa using ih (drawTileStep c t0 p0).1

/-- Witness for C7 on a concrete one-element trace. -/
theorem tile_cache_one_way_single_fetch_witness :
    cacheGet (drawTileStep [(⟨1, 0, 0⟩, TileState.loaded)] ⟨1, 1, 1⟩ none).1 ⟨1, 0, 0⟩ =
      some TileState.loaded :=
  (tile_cache_one_way_single_fetch [(⟨1, 0, 0⟩, TileState.loaded)] ⟨1, 1, 1⟩ none ⟨1, 0, 0⟩
    []).1 (by decide)

/-- C2 (amended): a double-click with zoom below MAX_ZOOM increases the zoom
by exactly one and makes the geographic point that was under the pointer the
new map center, so that point sits at the widget center afterwards (not
under the pointer, see the counterexample); at MAX_ZOOM the double-click
changes nothing. -/
theorem double_click_zoom_and_recenter (s : MapState) (rect : MapRect) (ptr : Pos2)
    (hin : rect.min_x ≤ ptr.x ∧ ptr.x ≤ rect.max_x ∧ rect.min_y ≤ ptr.y ∧ ptr.y ≤ rect.max_y) :
    (s.zoom < MAX_ZOOM →
      (doubleClickUpdate s rect ptr).zoom = s.zoom + 1 ∧
      (doubleClickUpdate s rect ptr).center_lon = (geoUnderPointer s rect ptr).lon ∧
      (doubleClickUpdate s rect ptr).center_lat = (geoUnderPointer s rect ptr).lat ∧
      (projOf (doubleClickUpdate s rect ptr) rect).project (geoUnderPointer s rect ptr) =
        rect.center) ∧
    (s.zoom = MAX_ZOOM → doubleClickUpdate s rect ptr = s) := by
  constructor
  · intro hz
    have hmin : min (s.zoom + 1) MAX_ZOOM = s.zoom + 1 := by omega
    have hcond : min (s.zoom + 1) MAX_ZOOM ≠ s.zoom := by omega
    unfold doubleClickUpdate
    rw [if_pos hcond, hmin]
    have hlon : x_to_lon (lon_to_x s.center_lon s.zoom +
        (ptr.x - rect.min_x - rect.width / 2) / TILE_SIZE) s.zoom =
        (geoUnderPointer s rect ptr).lon := rfl
    have hlat : y_to_lat (lat_to_y s.center_lat s.zoom +
        (ptr.y - rect.min_y - rect.height / 2) / TILE_SIZE) s.zoom =
        (geoUnderPointer s rect ptr).lat := rfl
    refine ⟨rfl, hlon, hlat, ?_⟩
    have hs' : geoUnderPointer s rect ptr =
        ⟨x_to_lon (lon_to_x s.center_lon s.zoom +
            (ptr.x - rect.min_x - rect.width / 2) / TILE_SIZE) s.zoom,
          y_to_lat (lat_to_y s.center_lat s.zoom +
            (ptr.y - rect.min_y - rect.height / 2) / TILE_SIZE) s.zoom⟩ := rfl
    rw [hs']
    exact project_center ⟨s.zoom + 1, _, _, rect⟩
  · intro hz
    unfold doubleClickUpdate
    have hcond : ¬(min (s.zoom + 1) MAX_ZOOM ≠ s.zoom) := by omega
    rw [if_neg hcond]

/-- Witness for C2 at a concrete state below MAX_ZOOM. -/
theorem double_click_zoom_and_recenter_witness :
    (doubleClickUpdate ⟨0, 0, 1⟩ ⟨0, 0, 800, 600⟩ ⟨300, 300⟩).zoom = 1 + 1 :=
  ((double_click_zoom_and_recenter ⟨0, 0, 1⟩ ⟨0, 0, 800, 600⟩ ⟨300, 300⟩
    (by norm_num)).1 (by decide)).1

/-- Counterexample for C2: at center longitude 0, zoom 1, widget rect
800 by 600 at the origin and pointer (300, 300), the longitude under the
pointer before the double-click is -70.3125 but afterwards it is
-105.46875: the geographic point under the pointer is not preserved, the
clicked point is moved to the widget center instead. -/
theorem double_click_pointer_geo_not_preserved :
    (geoUnderPointer (doubleClickUpdate ⟨0, 0, 1⟩ ⟨0, 0, 800, 600⟩ ⟨300, 300⟩)
        ⟨0, 0, 800, 600⟩ ⟨300, 300⟩).lon ≠
      (geoUnderPointer ⟨0, 0, 1⟩ ⟨0, 0, 800, 600⟩ ⟨300, 300⟩).lon := by
  unfold doubleClickUpdate geoUnderPointer projOf MapProjection.unproject
  unfold MAX_ZOOM TILE_SIZE MapRect.width MapRect.height lon_to_x x_to_lon
  norm_num

/-- Pointer-preservation core: a state whose center was adjusted backwards
by the pointer offset from a target geo-point puts exactly that geo-point
under the pointer again, for any target latitude strictly inside (-90, 90). -/
theorem geoUnder_of_adjusted_center (nz : ℕ) (rect : MapRect) (ptr : Pos2) (tlon tlat : ℝ)
    (h1 : -90 < tlat) (h2 : tlat < 90) :
    geoUnderPointer
      ⟨x_to_lon (lon_to_x tlon nz - (ptr.x - rect.min_x - rect.width / 2) / TILE_SIZE) nz,
        y_to_lat (lat_to_y tlat nz - (ptr.y - rect.min_y - rect.height / 2) / TILE_SIZE) nz,
        nz⟩ rect ptr = ⟨tlon, tlat⟩ := by
  unfold geoUnderPointer projOf MapProjection.unproject
  simp only [lon_to_x_x_to_lon, lat_to_y_y_to_lat]
  have hx : lon_to_x tlon nz - (ptr.x - rect.min_x - rect.width / 2) / TILE_SIZE +
      (ptr.x - rect.min_x - rect.width / 2) / TILE_SIZE = lon_to_x tlon nz := by ring
  have hy : lat_to_y tlat nz - (ptr.y - rect.min_y - rect.height / 2) / TILE_SIZE +
      (ptr.y - rect.min_y - rect.height / 2) / TILE_SIZE = lat_to_y tlat nz := by ring
  rw [hx, hy, x_to_lon_lon_to_x, y_to_lat_lat_to_y h1 h2]

/-- Characterization of scrollNewZoom for a zoom-in scroll. -/
theorem scrollNewZoom_pos (s : MapState) (rect : MapRect) (scroll : ℝ) (hpos : 0 < scroll) :
    scrollNewZoom s rect scroll = min (s.zoom + 1) MAX_ZOOM := by
  unfold scrollNewZoom
  rw [if_pos hpos]
  dsimp only
  split
  · next hcond => exact absurd hcond.1 (not_lt.mpr hpos.le)
  · omega

/-- Characterization of scrollNewZoom for a zoom-out scroll. -/
theorem scrollNewZoom_neg (s : MapState) (rect : MapRect) (scroll : ℝ) (hneg : scroll < 0) :
    scrollNewZoom s rect scroll =
      if (2 : ℝ) ^ (min (s.zoom - 1) MAX_ZOOM) * TILE_SIZE < rect.width ∨
          (2 : ℝ) ^ (min (s.zoom - 1) MAX_ZOOM) * TILE_SIZE < rect.height
        then s.zoom
      else min (s.zoom - 1) MAX_ZOOM := by
  unfold scrollNewZoom
  rw [if_neg (not_lt.mpr hneg.le)]
  dsimp only
  have hcl : (max 0 (min ((s.zoom : ℤ) + -1) (MAX_ZOOM : ℤ))).toNat =
      min (s.zoom - 1) MAX_ZOOM := by omega
  rw [hcl]
  split
  · next hcond => rw [if_pos hcond.2]
  · next hcond =>
    rw [if_neg fun hc => hcond ⟨hneg, hc⟩]

/-- The zoom field of a scroll update is scrollNewZoom when scroll is nonzero. -/
theorem scrollUpdate_zoom (s : MapState) (rect : MapRect) (ptr : Pos2) (scroll : ℝ)
    (hs : scroll ≠ 0) :
    (scrollUpdate s rect ptr scroll).zoom = scrollNewZoom s rect scroll := by
  unfold scrollUpdate
  rw [if_neg hs]
  dsimp only
  split
  · rfl
  · next hcond => omega

/-- C8: a hovered scroll event changes the zoom by one level clamped to the
zoom bounds; a zoom-out is rejected with the zoom left unchanged whenever
the world pixel size at the decremented zoom is smaller than the widget
width or height; and any zoom change preserves the geographic point under
the pointer. -/
theorem scroll_zoom_clamped_and_pointer_preserving (s : MapState) (rect : MapRect) (ptr : Pos2)
    (scroll : ℝ) (hs : scroll ≠ 0) :
    (0 < scroll → (scrollUpdate s rect ptr scroll).zoom = min (s.zoom + 1) MAX_ZOOM) ∧
    (scroll < 0 →
      ((2 : ℝ) ^ (min (s.zoom - 1) MAX_ZOOM) * TILE_SIZE < rect.width ∨
        (2 : ℝ) ^ (min (s.zoom - 1) MAX_ZOOM) * TILE_SIZE < rect.height) →
      (scrollUpdate s rect ptr scroll).zoom = s.zoom) ∧
    (scroll < 0 →
      ¬((2 : ℝ) ^ (min (s.zoom - 1) MAX_ZOOM) * TILE_SIZE < rect.width ∨
        (2 : ℝ) ^ (min (s.zoom - 1) MAX_ZOOM) * TILE_SIZE < rect.height) →
      (scrollUpdate s rect ptr scroll).zoom = min (s.zoom - 1) MAX_ZOOM) ∧
    ((scrollUpdate s rect ptr scroll).zoom ≠ s.zoom →
      geoUnderPointer (scrollUpdate s rect ptr scroll) rect ptr =
        geoUnderPointer s rect ptr) := by
  refine ⟨?_, ?_, ?_, ?_⟩
  · intro hpos
    rw [scrollUpdate_zoom s rect ptr scroll hs, scrollNewZoom_pos s rect scroll hpos]
  · intro hneg hsmall
    rw [scrollUpdate_zoom s rect ptr scroll hs, scrollNewZoom_neg s rect scroll hneg,
      if_pos hsmall]
  · intro hneg hbig
    rw [scrollUpdate_zoom s rect ptr scroll hs, scrollNewZoom_neg s rect scroll hneg,
      if_neg hbig]
  · intro hchange
    have hrange := y_to_lat_mem_range (lat_to_y s.center_lat s.zoom +
      (ptr.y - rect.min_y - rect.height / 2) / TILE_SIZE) s.zoom
    rw [scrollUpdate_zoom s rect ptr scroll hs] at hchange
    unfold scrollUpdate
    rw [if_neg hs]
    dsimp only
    rw [if_pos hchange]
    exact geoUnder_of_adjusted_center _ rect ptr _ _ hrange.1 hrange.2

/-- Witness for C8 at a concrete zoom-in scroll. -/
theorem scroll_zoom_clamped_and_pointer_preserving_witness :
    (scrollUpdate ⟨0, 0, 5⟩ ⟨0, 0, 800, 600⟩ ⟨300, 300⟩ 1).zoom = min (5 + 1) MAX_ZOOM :=
  (scroll_zoom_clamped_and_pointer_preserving ⟨0, 0, 5⟩ ⟨0, 0, 800, 600⟩ ⟨300, 300⟩ 1
    (by norm_num)).1 (by norm_num)

/-- C9: importing a Point feature yields a Circle exactly for a positive
numeric radius property; a missing or non-numeric radius (which defaults to
zero) or a non-positive radius is a returned error value, as are a Point
feature without properties and a feature without geometry.  Every failure
is an Except.error carrying a message, never a partially built Area. -/
theorem point_feature_import_radius_validation (pos : List ℝ) (props : JMap) (r : ℝ) :
    (0 < r → (jGet props "radius").bind JsonValue.asF64 = some r →
      ∃ a, Area.tryFrom ⟨some (GeoJsonGeometry.point pos), some props⟩ = Except.ok a ∧
        a.shape = AreaShape.circle (positionToGeoPos pos) r
          ((jGet props "points").bind JsonValue.asI64)) ∧
    ((jGet props "radius").bind JsonValue.asF64 = none →
      ∃ e, Area.tryFrom ⟨some (GeoJsonGeometry.point pos), some props⟩ = Except.error e) ∧
    (r ≤ 0 → (jGet props "radius").bind JsonValue.asF64 = some r →
      ∃ e, Area.tryFrom ⟨some (GeoJsonGeometry.point pos), some props⟩ = Except.error e) ∧
    (Area.tryFrom ⟨some (GeoJsonGeometry.point pos), none⟩ =
      Except.error "Feature has no properties") ∧
    (∀ props2 : Option JMap,
      Area.tryFrom ⟨none, props2⟩ = Except.error "Unsupported geometry or missing shape data") := by
  refine ⟨?_, ?_, ?_, ?_, ?_⟩
  · intro h0 hrad
    have h : Area.tryFrom ⟨some (GeoJsonGeometry.point pos), some props⟩ =
        Except.ok ⟨AreaShape.circle (positionToGeoPos pos) r
            ((jGet props "points").bind JsonValue.asI64),
          (decodeStyle (some props)).1, (decodeStyle (some props)).2⟩ := by
      unfold Area.tryFrom
      simp only [hrad, Option.getD_some]
      rw [if_neg (not_le.mpr h0)]
      rfl
    exact ⟨_, h, rfl⟩
  · intro hrad
    refine ⟨"Radius must be greater than 0", ?_⟩
    unfold Area.tryFrom
    simp only [hrad, Option.getD_none]
    rw [if_pos le_rfl]
    rfl
  · intro h0 hrad
    refine ⟨"Radius must be greater than 0", ?_⟩
    unfold Area.tryFrom
    simp only [hrad, Option.getD_some]
    rw [if_pos h0]
    rfl
  · rfl
  · intro props2
    rfl

/-- Witness for C9 at a concrete Point feature with radius 1000. -/
theorem point_feature_import_radius_validation_witness :
    ∃ a, Area.tryFrom ⟨some (GeoJsonGeometry.point [1, 2]),
        some [("radius", JsonValue.numF 1000)]⟩ = Except.ok a ∧
      a.shape = AreaShape.circle (positionToGeoPos [1, 2]) 1000
        ((jGet [("radius", JsonValue.numF 1000)] "points").bind JsonValue.asI64) :=
  (point_feature_import_radius_validation [1, 2] [("radius", JsonValue.numF 1000)] 1000).1
    (by norm_num) (by simp [jGet, JsonValue.asF64])

/-- A hex digit decodes back to its value. -/
theorem hexDigitVal_hexDigitChar {d : ℕ} (h : d < 16) :
    hexDigitVal (hexDigitChar d) = some d := by
  interval_cases d <;> decide

/-- A byte encoded as two hex digits decodes back to itself. -/
theorem hexPairVal_byteHex (v : Fin 256) :
    hexPairVal (hexDigitChar (v.val / 16)) (hexDigitChar (v.val % 16)) = some v := by
  have h1 : v.val / 16 < 16 := by omega
  have h2 : v.val % 16 < 16 := by omega
  unfold hexPairVal
  rw [hexDigitVal_hexDigitChar h1, hexDigitVal_hexDigitChar h2]
  have h3 : 16 * (v.val / 16) + v.val % 16 = v.val := by omega
  simp only [h3]
  rw [dif_pos v.isLt]

/-- The hex color codec round-trips every color. -/
theorem fromHex_toHex (c : Color32) : Color32.fromHex c.toHex = some c := by
  obtain ⟨r, g, b, a⟩ := c
  show Color32.fromHex (Color32.toHex ⟨r, g, b, a⟩) = some ⟨r, g, b, a⟩
  unfold Color32.toHex byteHex
  unfold Color32.fromHex
  simp only [List.cons_append, List.nil_append]
  simp only [hexPairVal_byteHex]

/-- Unprojecting the encoder's position list returns the original point. -/
theorem positionToGeoPos_geoPosToPosition (g : GeoPos) :
    positionToGeoPos (geoPosToPosition g) = g := rfl

/-- C6: encoding a polygon Area to a GeoJSON Feature and decoding it back
returns exactly the original ordered point list (the encoder appends the
closing duplicate of the first point and the decoder removes it) together
with the original stroke width, stroke color and fill color. -/
theorem polygon_geojson_roundtrip (pts : List GeoPos) (stroke : MapStroke) (fill : Color32) :
    Area.tryFrom (Area.toFeature ⟨AreaShape.polygon pts, stroke, fill⟩) =
      Except.ok ⟨AreaShape.polygon pts, stroke, fill⟩ := by
  obtain ⟨sw, sc⟩ := stroke
  unfold Area.toFeature Area.tryFrom decodeStyle
  simp only [addVersionToProperties, jInsert, jGet, crateName, crateVersion,
    String.reduceEq, reduceIte]
  simp [JsonValue.asF64, JsonValue.asStr, fromHex_toHex]
  cases pts with
  | nil => rfl
  | cons p rest =>
    simp only [List.head?_cons, List.map_cons, List.map_append, List.map_map]
    simp [positionToGeoPos_geoPosToPosition, List.getLast?_concat, List.dropLast_concat,
      Function.comp_def]
    rw [show p :: (rest ++ [p]) = (p :: rest) ++ [p] from rfl, List.dropLast_concat]
    rfl

/-- The squared distance to a segment is at most the squared distance to its
start point. -/
theorem dist_sq_to_segment_le_left (p a b : Pos2) : dist_sq_to_segment p a b ≤ distSq p a := by
  unfold dist_sq_to_segment distSq
  by_cases h : (b.x - a.x) ^ 2 + (b.y - a.y) ^ 2 = 0
  · rw [if_pos h]
  · rw [if_neg h]
    have hL : 0 < (b.x - a.x) ^ 2 + (b.y - a.y) ^ 2 :=
      lt_of_le_of_ne (by positivity) (Ne.symm h)
    set D := b.x - a.x with hD
    set E := b.y - a.y with hE
    set F := p.x - a.x with hF
    set G := p.y - a.y with hG
    set L := D ^ 2 + E ^ 2 with hLdef
    set S := F * D + G * E with hS
    set c := min (max (S / L) 0) 1 with hc
    have hgoal : (p.x - (a.x + c * D)) ^ 2 + (p.y - (a.y + c * E)) ^ 2 =
        F ^ 2 + G ^ 2 - 2 * c * S + c ^ 2 * L := by
      rw [hLdef, hS, hD, hE, hF, hG]
      ring
    rw [hgoal]
    have hkey : 0 ≤ c * (2 * S - c * L) := by
      rcases le_or_lt S 0 with hS0 | hS0
      · have hdiv : S / L ≤ 0 := by
          rw [div_nonpos_iff]
          right
          exact ⟨hS0, hL.le⟩
        have hc0 : c = 0 := by
          rw [hc, max_eq_right hdiv, min_eq_left zero_le_one]
        rw [hc0]
        simp
      · have hc0 : 0 ≤ c := le_min (le_max_right _ _) zero_le_one
        have hcle : c ≤ S / L := by
          rw [hc, max_eq_left (le_of_lt (div_pos hS0 hL))]
          exact min_le_left _ _
        have hcL : c * L ≤ S := (le_div_iff hL).mp hcle
        nlinarith [hc0, hcL, hS0.le]
    nlinarith [hkey]

/-- The squared distance to a segment is at most the squared distance to its
end point. -/
theorem dist_sq_to_segment_le_right (p a b : Pos2) : dist_sq_to_segment p a b ≤ distSq p b := by
  unfold dist_sq_to_segment distSq
  by_cases h : (b.x - a.x) ^ 2 + (b.y - a.y) ^ 2 = 0
  · rw [if_pos h]
    have hx : b.x = a.x := by nlinarith [sq_nonneg (b.x - a.x), sq_nonneg (b.y - a.y)]
    have hy : b.y = a.y := by nlinarith [sq_nonneg (b.x - a.x), sq_nonneg (b.y - a.y)]
    rw [hx, hy]
  · rw [if_neg h]
    have hL : 0 < (b.x - a.x) ^ 2 + (b.y - a.y) ^ 2 :=
      lt_of_le_of_ne (by positivity) (Ne.symm h)
    set D := b.x - a.x with hD
    set E := b.y - a.y with hE
    set F := p.x - a.x with hF
    set G := p.y - a.y with hG
    set L := D ^ 2 + E ^ 2 with hLdef
    set S := F * D + G * E with hS
    set c := min (max (S / L) 0) 1 with hc
    have hgoal : (p.x - (a.x + c * D)) ^ 2 + (p.y - (a.y + c * E)) ^ 2 =
        F ^ 2 + G ^ 2 - 2 * c * S + c ^ 2 * L := by
      rw [hLdef, hS, hD, hE, hF, hG]
      ring
    have hright : (p.x - b.x) ^ 2 + (p.y - b.y) ^ 2 =
        F ^ 2 + G ^ 2 - 2 * S + L := by
      rw [hLdef, hS, hD, hE, hF, hG]
      ring
    rw [hgoal, hright]
    have hc1 : c ≤ 1 := min_le_right _ _
    have hkey : 0 ≤ (1 - c) * (L * (1 + c) - 2 * S) := by
      rcases le_or_lt 1 (S / L) with hSL | hSL
      · have hc' : c = 1 := by
          rw [hc, max_eq_left (le_trans zero_le_one hSL), min_eq_right hSL]
        rw [hc']
        simp
      · have hcge : S / L ≤ c := by
          rw [hc]
          rcases le_or_lt (S / L) 0 with h0 | h0
          · rw [max_eq_right h0, min_eq_left zero_le_one]
            exact h0
          · rw [max_eq_left h0.le, min_eq_left hSL.le]
        have hSc : S ≤ c * L := by
          rw [div_le_iff hL] at hcge
          linarith [hcge]
        have hSL' : S < L := by
          rw [div_lt_iff hL] at hSL
          linarith [hSL]
        nlinarith [hc1, hSc, hSL']
    nlinarith [hkey]

/-- Every polyline emitted by the erase walk has at least two points. -/
theorem eraseWalk_mem_two_le (pointer : Pos2) (r2 : ℝ) (P : MapProjection) :
    ∀ (rest : List GeoPos) (prev : GeoPos) (current : List GeoPos) (visible : Bool)
      (acc : List (List GeoPos)),
      (∀ l ∈ acc, 2 ≤ l.length) →
      ∀ l ∈ eraseWalk pointer r2 P rest prev current visible acc, 2 ≤ l.length := by
  intro rest
  induction rest with
  | nil =>
    intro prev current visible acc hacc l hl
    unfold eraseWalk at hl
    split at hl
    · next hlen =>
      rcases List.mem_append.mp hl with h | h
      · exact hacc l h
      · rw [List.mem_singleton.mp h]
        omega
    · exact hacc l hl
  | cons g2 rest2 ih =>
    intro prev current visible acc hacc l hl
    unfold eraseWalk at hl
    dsimp only at hl
    split at hl
    · -- visible branch
      split at hl
      · -- segment erased
        split at hl
        · next hlen =>
          refine ih g2 [] false _ ?_ l hl
          intro l' hl'
          rcases List.mem_append.mp hl' with h | h
          · exact hacc l' h
          · rw [List.mem_singleton.mp h]
            omega
        · exact ih g2 _ false acc hacc l hl
      · exact ih g2 _ true acc hacc l hl
    · -- hidden branch
      split at hl
      · exact ih g2 _ false acc hacc l hl
      · exact ih g2 _ true acc hacc l hl

/-- Every polyline produced by split_polyline_by_erase_circle has at least
two points. -/
theorem split_polyline_mem_two_le (pl : List GeoPos) (pointer : Pos2) (r2 : ℝ)
    (P : MapProjection) :
    ∀ l ∈ split_polyline_by_erase_circle pl pointer r2 P, 2 ≤ l.length := by
  match pl with
  | [] => intro l hl; simp [split_polyline_by_erase_circle] at hl
  | [g] => intro l hl; simp [split_polyline_by_erase_circle] at hl
  | g0 :: g1 :: rest =>
    intro l hl
    unfold split_polyline_by_erase_circle at hl
    exact eraseWalk_mem_two_le pointer r2 P (g1 :: rest) g0 _ _ [] (by simp) l hl

/-- When no remaining segment is erased, the walk appends everything. -/
theorem eraseWalk_no_erase (pointer : Pos2) (r2 : ℝ) (P : MapProjection) :
    ∀ (rest : List GeoPos) (prev : GeoPos) (current : List GeoPos)
      (acc : List (List GeoPos)),
      List.Chain' (fun a b => ¬(dist_sq_to_segment pointer (P.project a) (P.project b) < r2))
        (prev :: rest) →
      eraseWalk pointer r2 P rest prev current true acc =
        (if 1 < (current ++ rest).length then acc ++ [current ++ rest] else acc) := by
  intro rest
  induction rest with
  | nil =>
    intro prev current acc hch
    unfold eraseWalk
    simp
  | cons g2 rest2 ih =>
    intro prev current acc hch
    rw [List.chain'_cons] at hch
    unfold eraseWalk
    rw [if_pos rfl, if_neg hch.1, ih g2 (current ++ [g2]) acc hch.2]
    simp [List.append_assoc]

/-- An erase whose circle stays clear of every segment of a polyline with at
least two points reproduces that polyline unchanged. -/
theorem split_polyline_no_erase (pl : List GeoPos) (pointer : Pos2) (r2 : ℝ)
    (P : MapProjection) (hlen : 2 ≤ pl.length)
    (hch : List.Chain' (fun a b =>
      ¬(dist_sq_to_segment pointer (P.project a) (P.project b) < r2)) pl) :
    split_polyline_by_erase_circle pl pointer r2 P = [pl] := by
  match pl, hlen with
  | g0 :: g1 :: rest, _ =>
    have hch' := hch
    rw [List.chain'_cons] at hch'
    unfold split_polyline_by_erase_circle
    dsimp only
    rw [if_neg hch'.1, decide_eq_false hch'.1]
    show eraseWalk pointer r2 P (g1 :: rest) g0 [g0] true [] = [g0 :: g1 :: rest]
    rw [eraseWalk_no_erase pointer r2 P (g1 :: rest) g0 [g0] [] hch]
    simp

/-- An eraser circle strictly covering the middle point of a three-point
polyline reaches both incident segments, so the whole polyline is erased. -/
theorem split_three_middle_covered (a b c : GeoPos) (pointer : Pos2) (r2 : ℝ)
    (P : MapProjection) (hb : distSq pointer (P.project b) < r2) :
    split_polyline_by_erase_circle [a, b, c] pointer r2 P = [] := by
  have h01 : dist_sq_to_segment pointer (P.project a) (P.project b) < r2 :=
    lt_of_le_of_lt (dist_sq_to_segment_le_right pointer (P.project a) (P.project b)) hb
  have h12 : dist_sq_to_segment pointer (P.project b) (P.project c) < r2 :=
    lt_of_le_of_lt (dist_sq_to_segment_le_left pointer (P.project b) (P.project c)) hb
  unfold split_polyline_by_erase_circle
  dsimp only
  rw [if_pos h01, decide_eq_true h01]
  show eraseWalk pointer r2 P [b, c] a [] false [] = []
  unfold eraseWalk
  rw [if_neg (by simp), if_pos h01]
  unfold eraseWalk
  rw [if_neg (by simp), if_pos h12]
  unfold eraseWalk
  simp

/-- C5 (amended): erasing with a circle strictly covering the middle point
of a three-point polyline erases both incident segments (erase granularity
is whole segments), producing zero output polylines rather than two; every
polyline a layer erase produces has at least two points; and an erase whose
circle stays clear of every segment leaves every polyline of the layer
unchanged, provided each has at least two points. -/
theorem erase_split_behavior :
    (∀ (a b c : GeoPos) (pointer : Pos2) (r2 : ℝ) (P : MapProjection),
      distSq pointer (P.project b) < r2 →
      split_polyline_by_erase_circle [a, b, c] pointer r2 P = []) ∧
    (∀ (layer : DrawingLayer) (pointer : Pos2) (P : MapProjection),
      ∀ out ∈ (erase_at layer pointer P).polylines, 2 ≤ out.length) ∧
    (∀ (layer : DrawingLayer) (pointer : Pos2) (P : MapProjection),
      (∀ pl ∈ layer.polylines, 2 ≤ pl.length ∧
        List.Chain' (fun a b => ¬(dist_sq_to_segment pointer (P.project a) (P.project b) <
          layer.stroke_width * layer.stroke_width)) pl) →
      (erase_at layer pointer P).polylines = layer.polylines) := by
  refine ⟨split_three_middle_covered, ?_, ?_⟩
  · intro layer pointer P out hout
    unfold erase_at at hout
    dsimp only at hout
    rcases List.mem_flatMap.mp hout with ⟨pl, _, hmem⟩
    exact split_polyline_mem_two_le pl pointer _ P out hmem
  · intro layer pointer P hall
    unfold erase_at
    dsimp only
    have h : ∀ pls : List (List GeoPos),
        (∀ pl ∈ pls, 2 ≤ pl.length ∧
          List.Chain' (fun a b => ¬(dist_sq_to_segment pointer (P.project a) (P.project b) <
            layer.stroke_width * layer.stroke_width)) pl) →
        (pls.flatMap fun pl => split_polyline_by_erase_circle pl pointer
          (layer.stroke_width * layer.stroke_width) P) = pls := by
      intro pls
      induction pls with
      | nil => intro _; rfl
      | cons hd tl ih =>
        intro hmem
        rw [List.flatMap_cons,
          split_polyline_no_erase hd pointer _ P (hmem hd (by simp)).1 (hmem hd (by simp)).2,
          ih fun pl hpl => hmem pl (List.mem_cons_of_mem hd hpl)]
        rfl
    exact h layer.polylines hall

/-- Witness for C5 on a concrete three-point polyline with the eraser over
the middle point. -/
theorem erase_split_behavior_witness :
    split_polyline_by_erase_circle
      [(⟨0, 0, 0, ⟨0, 0, 800, 600⟩⟩ : MapProjection).unproject ⟨0, 10⟩,
        (⟨0, 0, 0, ⟨0, 0, 800, 600⟩⟩ : MapProjection).unproject ⟨12, 10⟩,
        (⟨0, 0, 0, ⟨0, 0, 800, 600⟩⟩ : MapProjection).unproject ⟨24, 10⟩]
      ⟨12, 10⟩ 16 ⟨0, 0, 0, ⟨0, 0, 800, 600⟩⟩ = [] :=
  erase_split_behavior.1 _ _ _ ⟨12, 10⟩ 16 ⟨0, 0, 0, ⟨0, 0, 800, 600⟩⟩
    (by rw [project_unproject]; unfold distSq; norm_num)

/-- Counterexample for C5: a straight three-point polyline on screen at
(0,0), (10,0), (20,0) with eraser radius 3 (the stroke width) centered on
the middle point: the eraser strictly covers the middle point, covers
neither endpoint (so it does not cover the entire line), yet the erase
produces zero output polylines, not the two polylines the claim requires. -/
theorem erase_three_point_counterexample :
    distSq ⟨10, 0⟩ ((⟨0, 0, 0, ⟨0, 0, 800, 600⟩⟩ : MapProjection).project
      ((⟨0, 0, 0, ⟨0, 0, 800, 600⟩⟩ : MapProjection).unproject ⟨10, 0⟩)) < 3 * 3 ∧
    ¬(distSq ⟨10, 0⟩ ((⟨0, 0, 0, ⟨0, 0, 800, 600⟩⟩ : MapProjection).project
      ((⟨0, 0, 0, ⟨0, 0, 800, 600⟩⟩ : MapProjection).unproject ⟨0, 0⟩)) < 3 * 3) ∧
    ¬(distSq ⟨10, 0⟩ ((⟨0, 0, 0, ⟨0, 0, 800, 600⟩⟩ : MapProjection).project
      ((⟨0, 0, 0, ⟨0, 0, 800, 600⟩⟩ : MapProjection).unproject ⟨20, 0⟩)) < 3 * 3) ∧
    (erase_at
      ⟨[[(⟨0, 0, 0, ⟨0, 0, 800, 600⟩⟩ : MapProjection).unproject ⟨0, 0⟩,
          (⟨0, 0, 0, ⟨0, 0, 800, 600⟩⟩ : MapProjection).unproject ⟨10, 0⟩,
          (⟨0, 0, 0, ⟨0, 0, 800, 600⟩⟩ : MapProjection).unproject ⟨20, 0⟩]], 3⟩
      ⟨10, 0⟩ ⟨0, 0, 0, ⟨0, 0, 800, 600⟩⟩).polylines = [] := by
  refine ⟨?_, ?_, ?_, ?_⟩
  · rw [project_unproject]
    unfold distSq
    norm_num
  · rw [project_unproject]
    unfold distSq
    norm_num
  · rw [project_unproject]
    unfold distSq
    norm_num
  · unfold erase_at
    dsimp only
    rw [List.flatMap_cons, List.flatMap_nil,
      split_three_middle_covered _ _ _ _ _ _
        (by rw [project_unproject]; unfold distSq; norm_num)]
    rfl

/-- C3 (amended): during a polygon-node drag frame, if either replacement
edge strictly crosses (in general position) any polygon edge not incident to
the dragged node then the move is rejected and the layer is unchanged; more
precisely the code rejects exactly when its orientation-based
segments_intersect test fires on some checked pair (which also covers some
merely touching configurations, see the counterexample), and when no checked
pair fires the dragged node becomes the unprojection of the pointer. -/
theorem polygon_node_drag_validation (layer : AreaLayer) (ai ni : ℕ) (ptr : Pos2)
    (P : MapProjection) (area : Area) (pts : List GeoPos)
    (h1 : layer.areas.get? ai = some area) (h2 : area.shape = AreaShape.polygon pts)
    (h3 : 3 ≤ pts.length) (h4 : ni < pts.length) :
    ((∃ i, i < pts.length ∧ (i ≠ ni ∧ (i + 1) % pts.length ≠ ni) ∧
      (strict_general_cross
          ((pts.map P.project).getD ((ni + pts.length - 1) % pts.length) ⟨0, 0⟩) ptr
          ((pts.map P.project).getD i ⟨0, 0⟩)
          ((pts.map P.project).getD ((i + 1) % pts.length) ⟨0, 0⟩) = true ∨
        strict_general_cross
          ptr ((pts.map P.project).getD ((ni + 1) % pts.length) ⟨0, 0⟩)
          ((pts.map P.project).getD i ⟨0, 0⟩)
          ((pts.map P.project).getD ((i + 1) % pts.length) ⟨0, 0⟩) = true)) →
      dragPolygonNodeFrame layer ai ni ptr P = layer) ∧
    (is_move_valid layer ai ni ptr P = false → dragPolygonNodeFrame layer ai ni ptr P = layer) ∧
    (is_move_valid layer ai ni ptr P = true →
      dragPolygonNodeFrame layer ai ni ptr P =
        { areas := layer.areas.set ai
            { area with shape := AreaShape.polygon (pts.set ni (P.unproject ptr)) } } ∧
      (pts.set ni (P.unproject ptr)).get? ni = some (P.unproject ptr)) := by
  refine ⟨?_, ?_, ?_⟩
  · rintro ⟨i, hin, ⟨hni1, hni2⟩, hcross⟩
    suffices hmv : is_move_valid layer ai ni ptr P = false by
      unfold dragPolygonNodeFrame
      rw [hmv]
      simp
    unfold is_move_valid
    simp only [h1, h2]
    rw [if_neg (not_lt.mpr h3)]
    simp only [List.length_map]
    rw [Bool.eq_false_iff]
    intro hall
    rw [List.all_eq_true] at hall
    have hfi := hall i (List.mem_range.mpr hin)
    rw [if_neg (not_or.mpr ⟨hni1, hni2⟩)] at hfi
    rcases hcross with hc | hc
    · by_cases hprev : i ≠ (ni + pts.length - 1) % pts.length ∧
          (i + 1) % pts.length ≠ (ni + pts.length - 1) % pts.length
      · rw [if_pos hprev, strict_cross_imp_intersect hc] at hfi
        simp at hfi
      · rcases not_and_or.mp hprev with hsh | hsh
        · have hie : i = (ni + pts.length - 1) % pts.length := not_not.mp hsh
          rw [strict_cross_shared_endpoint_false (Or.inl (by rw [hie]))] at hc
          exact Bool.false_ne_true hc
        · have hie : (i + 1) % pts.length = (ni + pts.length - 1) % pts.length :=
            not_not.mp hsh
          rw [strict_cross_shared_endpoint_false (Or.inr (Or.inr (Or.inl (by rw [hie]))))] at hc
          exact Bool.false_ne_true hc
    · by_cases hnext : i ≠ (ni + 1) % pts.length ∧
          (i + 1) % pts.length ≠ (ni + 1) % pts.length
      · rw [if_pos hnext, strict_cross_imp_intersect hc] at hfi
        simp at hfi
      · rcases not_and_or.mp hnext with hsh | hsh
        · have hie : i = (ni + 1) % pts.length := not_not.mp hsh
          rw [strict_cross_shared_endpoint_false (Or.inr (Or.inl (by rw [hie])))] at hc
          exact Bool.false_ne_true hc
        · have hie : (i + 1) % pts.length = (ni + 1) % pts.length := not_not.mp hsh
          rw [strict_cross_shared_endpoint_false
            (Or.inr (Or.inr (Or.inr (by rw [hie]))))] at hc
          exact Bool.false_ne_true hc
  · intro hmv
    unfold dragPolygonNodeFrame
    rw [hmv]
    simp
  · intro hmv
    constructor
    · unfold dragPolygonNodeFrame
      rw [hmv]
      simp only [if_true]
      unfold setPolyNode
      simp only [h1, h2]
    · rw [List.get?_eq_getElem?, List.getElem?_set_eq_of_lt _ h4]

/-- Witness for C3 on a concrete triangle: for three points every edge is
incident to the dragged node or to a replacement-edge endpoint, so the move
is accepted and the dragged node becomes the unprojection of the pointer. -/
theorem polygon_node_drag_validation_witness :
    dragPolygonNodeFrame
        ⟨[⟨AreaShape.polygon [⟨0, 0⟩, ⟨1, 0⟩, ⟨0, 1⟩], defaultStroke, transparentFill⟩]⟩
        0 0 ⟨5, 5⟩ ⟨0, 0, 0, ⟨0, 0, 800, 600⟩⟩ =
      { areas := [⟨AreaShape.polygon [⟨0, 0⟩, ⟨1, 0⟩, ⟨0, 1⟩], defaultStroke,
          transparentFill⟩].set 0
          ⟨AreaShape.polygon ([(⟨0, 0⟩ : GeoPos), ⟨1, 0⟩, ⟨0, 1⟩].set 0
              ((⟨0, 0, 0, ⟨0, 0, 800, 600⟩⟩ : MapProjection).unproject ⟨5, 5⟩)),
            defaultStroke, transparentFill⟩ } ∧
    ([(⟨0, 0⟩ : GeoPos), ⟨1, 0⟩, ⟨0, 1⟩].set 0
        ((⟨0, 0, 0, ⟨0, 0, 800, 600⟩⟩ : MapProjection).unproject ⟨5, 5⟩)).get? 0 =
      some ((⟨0, 0, 0, ⟨0, 0, 800, 600⟩⟩ : MapProjection).unproject ⟨5, 5⟩) :=
  (polygon_node_drag_validation
    ⟨[⟨AreaShape.polygon [⟨0, 0⟩, ⟨1, 0⟩, ⟨0, 1⟩], defaultStroke, transparentFill⟩]⟩
    0 0 ⟨5, 5⟩ ⟨0, 0, 0, ⟨0, 0, 800, 600⟩⟩
    ⟨AreaShape.polygon [⟨0, 0⟩, ⟨1, 0⟩, ⟨0, 1⟩], defaultStroke, transparentFill⟩
    [⟨0, 0⟩, ⟨1, 0⟩, ⟨0, 1⟩] rfl rfl (by simp) (by simp)).2.2 (by rfl)

/-- Counterexample for C3: a square with screen corners (0,0), (100,0),
(100,100), (0,100); dragging corner 0 to (50,100), which lies exactly on the
far edge from (100,100) to (0,100).  Neither replacement edge strictly
crosses any edge not incident to the dragged node (the four strict tests are
all false - the configurations merely touch or are collinear), yet the code
rejects the move: the layer is unchanged and the node does not become the
unprojection of the pointer, refuting the claim's acceptance direction. -/
theorem polygon_node_drag_touch_rejected_counterexample :
    ([(⟨0, 0, 0, ⟨0, 0, 800, 600⟩⟩ : MapProjection).unproject ⟨0, 0⟩,
        (⟨0, 0, 0, ⟨0, 0, 800, 600⟩⟩ : MapProjection).unproject ⟨100, 0⟩,
        (⟨0, 0, 0, ⟨0, 0, 800, 600⟩⟩ : MapProjection).unproject ⟨100, 100⟩,
        (⟨0, 0, 0, ⟨0, 0, 800, 600⟩⟩ : MapProjection).unproject ⟨0, 100⟩].map
      (⟨0, 0, 0, ⟨0, 0, 800, 600⟩⟩ : MapProjection).project) =
      [⟨0, 0⟩, ⟨100, 0⟩, ⟨100, 100⟩, ⟨0, 100⟩] ∧
    strict_general_cross ⟨0, 100⟩ ⟨50, 100⟩ ⟨100, 0⟩ ⟨100, 100⟩ = false ∧
    strict_general_cross ⟨0, 100⟩ ⟨50, 100⟩ ⟨100, 100⟩ ⟨0, 100⟩ = false ∧
    strict_general_cross ⟨50, 100⟩ ⟨100, 0⟩ ⟨100, 0⟩ ⟨100, 100⟩ = false ∧
    strict_general_cross ⟨50, 100⟩ ⟨100, 0⟩ ⟨100, 100⟩ ⟨0, 100⟩ = false ∧
    dragPolygonNodeFrame
        ⟨[⟨AreaShape.polygon
            [(⟨0, 0, 0, ⟨0, 0, 800, 600⟩⟩ : MapProjection).unproject ⟨0, 0⟩,
              (⟨0, 0, 0, ⟨0, 0, 800, 600⟩⟩ : MapProjection).unproject ⟨100, 0⟩,
              (⟨0, 0, 0, ⟨0, 0, 800, 600⟩⟩ : MapProjection).unproject ⟨100, 100⟩,
              (⟨0, 0, 0, ⟨0, 0, 800, 600⟩⟩ : MapProjection).unproject ⟨0, 100⟩],
            defaultStroke, transparentFill⟩]⟩
        0 0 ⟨50, 100⟩ ⟨0, 0, 0, ⟨0, 0, 800, 600⟩⟩ =
      ⟨[⟨AreaShape.polygon
          [(⟨0, 0, 0, ⟨0, 0, 800, 600⟩⟩ : MapProjection).unproject ⟨0, 0⟩,
            (⟨0, 0, 0, ⟨0, 0, 800, 600⟩⟩ : MapProjection).unproject ⟨100, 0⟩,
            (⟨0, 0, 0, ⟨0, 0, 800, 600⟩⟩ : MapProjection).unproject ⟨100, 100⟩,
            (⟨0, 0, 0, ⟨0, 0, 800, 600⟩⟩ : MapProjection).unproject ⟨0, 100⟩],
          defaultStroke, transparentFill⟩]⟩ ∧
    (⟨0, 0, 0, ⟨0, 0, 800, 600⟩⟩ : MapProjection).unproject ⟨50, 100⟩ ≠
      (⟨0, 0, 0, ⟨0, 0, 800, 600⟩⟩ : MapProjection).unproject ⟨0, 0⟩ := by
  refine ⟨?_, ?_, ?_, ?_, ?_, ?_, ?_⟩
  · simp [project_unproject]
  · unfold strict_general_cross orientation
    norm_num
  · unfold strict_general_cross orientation
    norm_num
  · unfold strict_general_cross orientation
    norm_num
  · unfold strict_general_cross orientation
    norm_num
  · have hmv : is_move_valid
        ⟨[⟨AreaShape.polygon
            [(⟨0, 0, 0, ⟨0, 0, 800, 600⟩⟩ : MapProjection).unproject ⟨0, 0⟩,
              (⟨0, 0, 0, ⟨0, 0, 800, 600⟩⟩ : MapProjection).unproject ⟨100, 0⟩,
              (⟨0, 0, 0, ⟨0, 0, 800, 600⟩⟩ : MapProjection).unproject ⟨100, 100⟩,
              (⟨0, 0, 0, ⟨0, 0, 800, 600⟩⟩ : MapProjection).unproject ⟨0, 100⟩],
            defaultStroke, transparentFill⟩]⟩
        0 0 ⟨50, 100⟩ ⟨0, 0, 0, ⟨0, 0, 800, 600⟩⟩ = false := by
      unfold is_move_valid
      simp only [List.get?, List.length_cons, List.length_nil, List.length_map,
        List.map_cons, List.map_nil, project_unproject]
      rw [Bool.eq_false_iff]
      intro hall
      norm_num at hall
      have hfi := hall 2 (by norm_num)
      norm_num [segments_intersect, orientation] at hfi
    unfold dragPolygonNodeFrame
    rw [hmv]
    simp
  · intro h
    have hlon := congrArg GeoPos.lon h
    unfold MapProjection.unproject x_to_lon lon_to_x TILE_SIZE MapRect.width at hlon
    norm_num at hlon
